import Mathlib

/-!
# Verification of the scheduler report client (`nova/scheduler/client/report.py`)

A shallow embedding of the placement report client: the move-operation
allocation merge, the claim/retry protocol, allocation removal, the inventory
update/conflict protocol, the association-refresh staleness policy, and the
provider tree cache lifecycle.  HTTP transport is modelled as explicit
response values supplied through environment records; `time.time()` is
modelled as an explicit clock value in the environment.

Helpers that live outside this repository snapshot
(`nova.compute.provider_tree.ProviderTree`, `nova.scheduler.utils
.merge_resources`) are modelled from the specification and are marked
`Modelled from the spec:` in their doc comments.
-/

set_option maxHeartbeats 1000000

namespace NovaReport

/-! ## Association lists (Python `dict`, insertion ordered) -/

/-- Python `d.get(k)` / `k in d`: first value bound to key `k`. -/
def alist_get {β : Type} (k : String) : List (String × β) → Option β
  | [] => none
  | (k', v) :: rest => if k = k' then some v else alist_get k rest

/-- Python `d[k] = v`: replace the first binding of `k`, or append a new one. -/
def alist_put {β : Type} (k : String) (v : β) : List (String × β) → List (String × β)
  | [] => [(k, v)]
  | (k', v') :: rest =>
    if k = k' then (k, v) :: rest else (k', v') :: alist_put k v rest

/-- In-place update of the value bound to `k` (no-op when `k` is unbound). -/
def alist_update {β : Type} (k : String) (f : β → β) :
    List (String × β) → List (String × β)
  | [] => []
  | (k', v) :: rest =>
    if k = k' then (k', f v) :: rest else (k', v) :: alist_update k f rest

theorem alist_get_put_self {β : Type} (k : String) (v : β)
    (l : List (String × β)) : alist_get k (alist_put k v l) = some v := by
  induction l with
  | nil => simp [alist_put, alist_get]
  | cons hd tl ih =>
    obtain ⟨k', v'⟩ := hd
    by_cases h : k = k' <;> simp [alist_put, alist_get, h, ih]

theorem alist_get_put_ne {β : Type} {k k' : String} (hne : k ≠ k') (v : β)
    (l : List (String × β)) : alist_get k (alist_put k' v l) = alist_get k l := by
  induction l with
  | nil => simp [alist_put, alist_get, hne]
  | cons hd tl ih =>
    obtain ⟨k'', v''⟩ := hd
    by_cases h : k' = k''
    · subst h; simp [alist_put, alist_get, hne]
    · by_cases h2 : k = k'' <;> simp [alist_put, alist_get, h, h2, ih]

theorem alist_get_update_self {β : Type} (k : String) (f : β → β)
    (l : List (String × β)) :
    alist_get k (alist_update k f l) = (alist_get k l).map f := by
  induction l with
  | nil => simp [alist_update, alist_get]
  | cons hd tl ih =>
    obtain ⟨k', v'⟩ := hd
    by_cases h : k = k' <;> simp [alist_update, alist_get, h, ih]

theorem alist_get_update_ne {β : Type} {k k' : String} (hne : k ≠ k')
    (f : β → β) (l : List (String × β)) :
    alist_get k (alist_update k' f l) = alist_get k l := by
  induction l with
  | nil => simp [alist_update, alist_get]
  | cons hd tl ih =>
    obtain ⟨k'', v''⟩ := hd
    by_cases h : k' = k''
    · subst h; simp [alist_update, alist_get, hne]
    · by_cases h2 : k = k'' <;> simp [alist_update, alist_get, h, h2, ih]

/-! ## Resource dictionaries and allocation lines -/

/-- A resource dictionary: resource class name → integer amount
(Python `{'VCPU': 4, ...}`). -/
abbrev RC := List (String × Nat)

/-- Amount recorded for resource class `rc` (0 when absent). -/
def lookupRC (rs : RC) (rc : String) : Nat := (alist_get rc rs).getD 0

/-- One line of an `allocations` list in an allocation request:
`{'resource_provider': {'uuid': rp}, 'resources': {...}}`. -/
structure AllocLine where
  rp : String
  resources : RC
  deriving DecidableEq, Repr

/-- Modelled from the spec: `nova.scheduler.utils.merge_resources` with the
default sign `+1` (the module is not part of this snapshot).  Sums, per
resource class, the quantities of both dictionaries, producing one combined
line per resource class (classes only present in `new` are appended). -/
def merge_resources (orig new : RC) : RC :=
  (orig ++ new.filter (fun p => (alist_get p.1 orig).isNone)).map
    (fun p => (p.1, lookupRC orig p.1 + lookupRC new p.1))

/-- Modelled from the spec: `nova.scheduler.utils.merge_resources` with sign
`-1` (the module is not part of this snapshot).  Subtracts, per resource
class, the `sub` quantities from `orig`, clamped so no amount goes
negative. -/
def merge_resources_subtract (orig sub : RC) : RC :=
  orig.map (fun p => (p.1, p.2 - lookupRC sub p.1))

theorem alist_get_map_sum (l : List (String × Nat)) (orig new : RC) (rc : String) :
    alist_get rc (l.map (fun p => (p.1, lookupRC orig p.1 + lookupRC new p.1)))
      = (alist_get rc l).map (fun _ => lookupRC orig rc + lookupRC new rc) := by
  induction l with
  | nil => simp [alist_get]
  | cons hd tl ih =>
    obtain ⟨k, v⟩ := hd
    by_cases h : rc = k
    · subst h; simp [alist_get]
    · simp [alist_get, h, ih]

theorem alist_get_append_none {β : Type} {a b : List (String × β)} {k : String}
    (h : alist_get k (a ++ b) = none) :
    alist_get k a = none ∧ alist_get k b = none := by
  induction a with
  | nil => simpa [alist_get] using h
  | cons hd tl ih =>
    obtain ⟨k', v⟩ := hd
    by_cases hk : k = k'
    · subst hk; simp [alist_get] at h
    · simp only [List.cons_append, alist_get, if_neg hk] at h ⊢
      exact ih h

theorem alist_get_filter_none (n : RC) (orig : RC) (rc : String)
    (h : alist_get rc (n.filter (fun p => (alist_get p.1 orig).isNone)) = none)
    (horig : alist_get rc orig = none) : alist_get rc n = none := by
  induction n with
  | nil => simp [alist_get]
  | cons hd tl ih =>
    obtain ⟨k, v⟩ := hd
    by_cases hk : rc = k
    · subst hk
      rw [List.filter_cons] at h
      simp [horig, alist_get] at h
    · rw [List.filter_cons] at h
      by_cases hkeep : ((alist_get k orig).isNone : Bool) = true
      · simp only [hkeep, if_true] at h
        simp only [alist_get, if_neg hk] at h
        simp only [alist_get, if_neg hk]
        exact ih h
      · simp only [hkeep, if_false] at h
        simp only [alist_get, if_neg hk]
        exact ih h

/-- Per-class content of the spec-modelled summation: the merged dictionary
records, for every resource class, the sum of both quantities. -/
theorem lookupRC_merge (orig new : RC) (rc : String) :
    lookupRC (merge_resources orig new) rc = lookupRC orig rc + lookupRC new rc := by
  show (alist_get rc
      ((orig ++ new.filter (fun p => (alist_get p.1 orig).isNone)).map
        (fun p => (p.1, lookupRC orig p.1 + lookupRC new p.1)))).getD 0
    = lookupRC orig rc + lookupRC new rc
  rw [alist_get_map_sum]
  cases hfind : alist_get rc
      (orig ++ new.filter (fun p => (alist_get p.1 orig).isNone)) with
  | some v =>
    simp [lookupRC]
  | none =>
    obtain ⟨h1, h2⟩ := alist_get_append_none hfind
    have h3 := alist_get_filter_none new orig rc h2 h1
    simp [lookupRC, h1, h3]

/-! ## `_move_operation_alloc_request` (report.py lines 181-237) -/

/-- The in-place summation applied to one existing line `cur` when the
destination line `alloc` targets the same provider (the body of the
`for current_alloc in current_allocs` loop in `_move_operation_alloc_request`). -/
def upd_line (alloc cur : AllocLine) : AllocLine :=
  if cur.rp = alloc.rp then
    ⟨cur.rp, merge_resources cur.resources alloc.resources⟩
  else cur

/-- The per-destination-line step of the loop
`for alloc in dest_alloc_req['allocations']` in
`_move_operation_alloc_request`. -/
def move_step (new_rp_uuids : List String) (acc : List AllocLine)
    (alloc : AllocLine) : List AllocLine :=
  if alloc.rp ∈ new_rp_uuids then acc ++ [alloc]
  else if new_rp_uuids.isEmpty then acc.map (upd_line alloc)
  else acc

/-- `_move_operation_alloc_request(source_allocs, dest_alloc_req)`:
`source_allocs` is the dict (keyed by provider uuid) of current allocations,
`dest` the `allocations` list of the destination request; the result is the
`allocations` list of the merged request (`new_rp_uuids` is the set of
destination providers absent from the current allocation; `current_allocs`
the current allocations re-expressed as request lines). -/
def move_operation_alloc_request (source_allocs : List (String × RC))
    (dest : List AllocLine) : List AllocLine :=
  dest.foldl
    (move_step ((dest.map AllocLine.rp).filter
      (fun u => decide (u ∉ source_allocs.map Prod.fst))))
    (source_allocs.map (fun p => AllocLine.mk p.1 p.2))

theorem upd_line_rp (a cur : AllocLine) : (upd_line a cur).rp = cur.rp := by
  unfold upd_line; split <;> rfl

/-- In the same-host case the fold over destination lines acts pointwise on
the current allocation lines. -/
theorem foldl_move_step_nil (l : List AllocLine) (init : List AllocLine) :
    l.foldl (move_step []) init
      = init.map (fun x => l.foldl (fun x a => upd_line a x) x) := by
  induction l generalizing init with
  | nil => simp
  | cons hd tl ih =>
    simp only [List.foldl_cons]
    have h1 : move_step [] init hd = init.map (upd_line hd) := by
      simp [move_step]
    rw [h1, ih, List.map_map]
    rfl

/-- A line whose provider matches no destination line is untouched by the
same-host update fold. -/
theorem foldl_upd_no_match (l : List AllocLine) (x : AllocLine)
    (h : ∀ a ∈ l, a.rp ≠ x.rp) :
    l.foldl (fun x a => upd_line a x) x = x := by
  induction l with
  | nil => rfl
  | cons hd tl ih =>
    have hne : x.rp ≠ hd.rp := fun he => h hd (by simp) he.symm
    simp only [List.foldl_cons, upd_line, if_neg hne]
    exact ih (fun a ha => h a (by simp [ha]))

/-- With destination providers pairwise distinct, the line matching the single
destination line `a0` ends up merged with exactly `a0`. -/
theorem foldl_upd_single (l : List AllocLine) (x : AllocLine) (a0 : AllocLine)
    (hnd : (l.map AllocLine.rp).Nodup)
    (hmem : a0 ∈ l) (hrp : a0.rp = x.rp) :
    l.foldl (fun x a => upd_line a x) x
      = ⟨x.rp, merge_resources x.resources a0.resources⟩ := by
  induction l generalizing x with
  | nil => cases hmem
  | cons hd tl ih =>
    simp only [List.map_cons, List.nodup_cons] at hnd
    rcases List.mem_cons.mp hmem with heq | htl
    · subst heq
      simp only [List.foldl_cons, upd_line, if_pos hrp.symm]
      have hnone' : ∀ a ∈ tl,
          a.rp ≠ (AllocLine.mk x.rp (merge_resources x.resources a0.resources)).rp := by
        intro a ha he
        apply hnd.1
        have hmm : a.rp ∈ List.map AllocLine.rp tl := List.mem_map_of_mem _ ha
        rw [he] at hmm
        show a0.rp ∈ List.map AllocLine.rp tl
        rw [hrp]
        exact hmm
      exact foldl_upd_no_match tl _ hnone'
    · have hne : x.rp ≠ hd.rp := by
        intro he
        apply hnd.1
        rw [he] at hrp
        exact hrp ▸ List.mem_map_of_mem _ htl
      simp only [List.foldl_cons]
      rw [show upd_line hd x = x from by unfold upd_line; rw [if_neg hne]]
      exact ih x hnd.2 htl hrp

theorem foldl_upd_preserves_rp (l : List AllocLine) (x : AllocLine) :
    (l.foldl (fun x a => upd_line a x) x).rp = x.rp := by
  induction l generalizing x with
  | nil => rfl
  | cons hd tl ih =>
    simp only [List.foldl_cons]
    rw [ih, upd_line_rp]

/-- Filtering on the provider uuid commutes with a map that preserves it. -/
theorem filter_rp_map (F : AllocLine → AllocLine)
    (hF : ∀ x, (F x).rp = x.rp) (p : String) (l : List AllocLine) :
    (l.map F).filter (fun y => decide (y.rp = p))
      = (l.filter (fun x => decide (x.rp = p))).map F := by
  induction l with
  | nil => simp
  | cons hd tl ih =>
    simp only [List.map_cons, List.filter_cons, hF]
    by_cases h : hd.rp = p
    · simp [h, ih]
    · simp [h, ih]

theorem filter_rp_mk (p : String) (src : List (String × RC)) :
    ((src.map (fun q => AllocLine.mk q.1 q.2)).filter (fun y => decide (y.rp = p)))
      = (src.filter (fun q => decide (q.1 = p))).map (fun q => AllocLine.mk q.1 q.2) := by
  induction src with
  | nil => simp
  | cons hd tl ih =>
    simp only [List.map_cons, List.filter_cons]
    by_cases h : hd.1 = p
    · rw [if_pos (by simp [h]), if_pos (by simp [h]), List.map_cons, ih]
    · rw [if_neg (by simp [h]), if_neg (by simp [h]), ih]

/-- Entries of an association list with pairwise-distinct keys: filtering on a
bound key yields exactly the binding found by lookup. -/
theorem alist_filter_eq_single {β : Type} (l : List (String × β))
    (p : String) (v : β) (hnd : (l.map Prod.fst).Nodup)
    (hget : alist_get p l = some v) :
    l.filter (fun q => decide (q.1 = p)) = [(p, v)] := by
  induction l with
  | nil => simp [alist_get] at hget
  | cons hd tl ih =>
    obtain ⟨k, w⟩ := hd
    simp only [List.map_cons, List.nodup_cons] at hnd
    by_cases hk : p = k
    · subst hk
      have hwv : w = v := by simpa [alist_get] using hget
      subst hwv
      rw [List.filter_cons]
      simp only [decide_eq_true_eq, if_pos rfl]
      have : tl.filter (fun q => decide (q.1 = p)) = [] := by
        apply List.filter_eq_nil_iff.mpr
        intro q hq hdec
        have : q.1 = p := by simpa using hdec
        exact hnd.1 (this ▸ List.mem_map_of_mem _ hq)
      rw [this]
      simp
    · simp only [alist_get, if_neg hk] at hget
      rw [List.filter_cons]
      have : ¬ (k = p) := fun he => hk he.symm
      simp only [this, decide_eq_false_iff_not, if_neg, decide_eq_true_eq]
      exact ih hnd.2 hget

/-- C1: in the same-host resize case (no destination provider outside the
current allocation), the merged request has, for each provider appearing in
both, a single allocation line whose quantity for every resource class is the
sum of the current quantity and the destination quantity. -/
theorem move_merge_same_host_sums (src : List (String × RC)) (dest : List AllocLine)
    (p : String) (sres : RC) (a0 : AllocLine)
    (hnd_src : (src.map Prod.fst).Nodup)
    (hnd_dest : (dest.map AllocLine.rp).Nodup)
    (hsub : ∀ a ∈ dest, a.rp ∈ src.map Prod.fst)
    (hsrc : alist_get p src = some sres)
    (hmem : a0 ∈ dest) (ha0 : a0.rp = p) :
    (move_operation_alloc_request src dest).filter (fun l => decide (l.rp = p))
      = [⟨p, merge_resources sres a0.resources⟩]
    ∧ ∀ rc, lookupRC (merge_resources sres a0.resources) rc
        = lookupRC sres rc + lookupRC a0.resources rc := by
  refine ⟨?_, fun rc => lookupRC_merge _ _ rc⟩
  have hnew : (dest.map AllocLine.rp).filter
      (fun u => decide (u ∉ src.map Prod.fst)) = [] := by
    apply List.filter_eq_nil_iff.mpr
    intro u hu hdec
    rcases List.mem_map.mp hu with ⟨a, ha, rfl⟩
    have hnotmem : a.rp ∉ src.map Prod.fst := by simpa using hdec
    exact hnotmem (hsub a ha)
  unfold move_operation_alloc_request
  rw [hnew, foldl_move_step_nil,
    filter_rp_map _ (fun x => foldl_upd_preserves_rp dest x) p,
    filter_rp_mk, alist_filter_eq_single src p sres hnd_src hsrc,
    List.map_cons, List.map_nil, List.map_cons, List.map_nil]
  rw [foldl_upd_single dest (AllocLine.mk p sres) a0 hnd_dest hmem ha0]

/-- C1 witness: current `{A: {VCPU:4, MEMORY_MB:2048}}` merged with a
destination request referencing only `A` with the same quantities yields a
single line for `A` with `{VCPU:8, MEMORY_MB:4096}`. -/
theorem move_merge_same_host_sums_witness :
    (move_operation_alloc_request
        [("A", [("VCPU", 4), ("MEMORY_MB", 2048)])]
        [⟨"A", [("VCPU", 4), ("MEMORY_MB", 2048)]⟩]).filter
        (fun l => decide (l.rp = "A"))
      = [⟨"A", [("VCPU", 8), ("MEMORY_MB", 4096)]⟩] := by
  have h := move_merge_same_host_sums
      [("A", [("VCPU", 4), ("MEMORY_MB", 2048)])]
      [⟨"A", [("VCPU", 4), ("MEMORY_MB", 2048)]⟩]
      "A" [("VCPU", 4), ("MEMORY_MB", 2048)]
      ⟨"A", [("VCPU", 4), ("MEMORY_MB", 2048)]⟩
      (by decide) (by decide) (by decide) (by decide) (by decide) (by decide)
  rw [h.1]
  decide

/-- Membership in the merged request is preserved for a line whose provider
matches no destination line. -/
theorem move_fold_keeps_line (ns : List String) (l : List AllocLine)
    (x : AllocLine) (hx : ∀ a ∈ l, a.rp ≠ x.rp) (acc : List AllocLine)
    (hacc : x ∈ acc) : x ∈ l.foldl (move_step ns) acc := by
  induction l generalizing acc with
  | nil => exact hacc
  | cons hd tl ih =>
    simp only [List.foldl_cons]
    apply ih (fun a ha => hx a (List.mem_cons_of_mem _ ha))
    unfold move_step
    by_cases h1 : hd.rp ∈ ns
    · rw [if_pos h1]; exact List.mem_append_left _ hacc
    · rw [if_neg h1]
      by_cases h2 : ns.isEmpty
      · rw [if_pos h2]
        have hid : upd_line hd x = x := by
          unfold upd_line
          rw [if_neg (fun he => hx hd (List.mem_cons_self _ _) he.symm)]
        exact hid ▸ List.mem_map_of_mem _ hacc
      · rw [if_neg h2]; exact hacc

/-- When some destination provider is new, every fold step only appends. -/
theorem move_fold_mono (ns : List String) (hne : ns ≠ []) (l : List AllocLine)
    (x : AllocLine) (acc : List AllocLine) (hacc : x ∈ acc) :
    x ∈ l.foldl (move_step ns) acc := by
  induction l generalizing acc with
  | nil => exact hacc
  | cons hd tl ih =>
    simp only [List.foldl_cons]
    apply ih
    unfold move_step
    by_cases h1 : hd.rp ∈ ns
    · rw [if_pos h1]; exact List.mem_append_left _ hacc
    · have h2 : ¬ (ns.isEmpty = true) := by simpa using hne
      rw [if_neg h1, if_neg h2]
      exact hacc

/-- A destination line for a provider in `new_rp_uuids` is appended by the
fold. -/
theorem move_fold_adds_new (ns : List String) (l : List AllocLine)
    (a : AllocLine) (hmem : a ∈ l) (hns : a.rp ∈ ns) (acc : List AllocLine) :
    a ∈ l.foldl (move_step ns) acc := by
  induction l generalizing acc with
  | nil => cases hmem
  | cons hd tl ih =>
    have hne : ns ≠ [] := by intro h; rw [h] at hns; cases hns
    simp only [List.foldl_cons]
    rcases List.mem_cons.mp hmem with heq | htl
    · subst heq
      apply move_fold_mono ns hne tl a
      unfold move_step
      rw [if_pos hns]
      exact List.mem_append_right _ (by simp)
    · exact ih htl _

/-- C2: cross-host move merge keeps every current allocation line whose
provider is not referenced by the destination request, and adds every
destination line whose provider was not part of the current allocation. -/
theorem move_merge_cross_host_keeps_and_adds (src : List (String × RC))
    (dest : List AllocLine) :
    (∀ p res, (p, res) ∈ src → p ∉ dest.map AllocLine.rp →
        AllocLine.mk p res ∈ move_operation_alloc_request src dest)
    ∧ (∀ a ∈ dest, a.rp ∉ src.map Prod.fst →
        a ∈ move_operation_alloc_request src dest) := by
  constructor
  · intro p res hmem hnot
    unfold move_operation_alloc_request
    apply move_fold_keeps_line
    · intro a ha he
      apply hnot
      have hmm : a.rp ∈ dest.map AllocLine.rp := List.mem_map_of_mem _ ha
      rw [he] at hmm
      exact hmm
    · exact List.mem_map_of_mem _ hmem
  · intro a ha hnot
    unfold move_operation_alloc_request
    apply move_fold_adds_new _ _ _ ha
    apply List.mem_filter.mpr
    exact ⟨List.mem_map_of_mem _ ha, by simpa using hnot⟩

/-- C2 witness: current `{A: {VCPU:4}}` merged with a destination request
referencing only `B` with `{VCPU:4}` contains both `A:{VCPU:4}` and
`B:{VCPU:4}`. -/
theorem move_merge_cross_host_keeps_and_adds_witness :
    AllocLine.mk "A" [("VCPU", 4)] ∈ move_operation_alloc_request
        [("A", [("VCPU", 4)])] [⟨"B", [("VCPU", 4)]⟩]
    ∧ AllocLine.mk "B" [("VCPU", 4)] ∈ move_operation_alloc_request
        [("A", [("VCPU", 4)])] [⟨"B", [("VCPU", 4)]⟩] := by
  have h := move_merge_cross_host_keeps_and_adds
      [("A", [("VCPU", 4)])] [⟨"B", [("VCPU", 4)]⟩]
  exact ⟨h.1 "A" [("VCPU", 4)] (by decide) (by decide),
    h.2 ⟨"B", [("VCPU", 4)]⟩ (by decide) (by decide)⟩

/-! ## `remove_provider_from_instance_allocation` (report.py lines 1332-1426) -/

/-- Providers offering compute capacity, detected via presence of the `VCPU`
resource class (`'VCPU' in alloc['resources']`). -/
def compute_providers_of (current : List (String × RC)) : List String :=
  (current.filter (fun pa => (alist_get "VCPU" pa.2).isSome)).map Prod.fst

/-- The allocation lines for every provider other than `rp_uuid`
(the `new_allocs` list comprehension). -/
def allocs_without (current : List (String × RC)) (rp_uuid : String) :
    List AllocLine :=
  (current.filter (fun pa => decide (pa.1 ≠ rp_uuid))).map
    (fun pa => AllocLine.mk pa.1 pa.2)

/-- Environment for one `remove_provider_from_instance_allocation` call: the
GET status, the consumer's current allocations (the decoded `allocations`
dict when the GET succeeded), and the PUT status. -/
structure RemoveAllocEnv where
  getStatus : Nat
  current_allocs : List (String × RC)
  putStatus : Nat

/-- `remove_provider_from_instance_allocation(consumer, rp_uuid, ...,
resources)`: returns the success flag and, when a PUT was issued, the
`allocations` list of its payload (`none` when no write happened). -/
def remove_provider_from_instance_allocation (env : RemoveAllocEnv)
    (rp_uuid : String) (resources : RC) : Bool × Option (List AllocLine) :=
  if env.getStatus ≠ 200 then (false, none)
  else if env.current_allocs.isEmpty then (false, none)
  else if (alist_get rp_uuid env.current_allocs).isNone then (true, none)
  else
    (decide (env.putStatus = 204), some (
      if (compute_providers_of env.current_allocs).length = 1 then
        allocs_without env.current_allocs rp_uuid
          ++ [⟨rp_uuid, merge_resources_subtract
                ((alist_get rp_uuid env.current_allocs).getD []) resources⟩]
      else allocs_without env.current_allocs rp_uuid))

/-- Per-class content of the spec-modelled clamped subtraction. -/
theorem lookupRC_subtract (orig sub : RC) (rc : String) :
    lookupRC (merge_resources_subtract orig sub) rc
      = lookupRC orig rc - lookupRC sub rc := by
  induction orig with
  | nil => simp [merge_resources_subtract, lookupRC, alist_get]
  | cons hd tl ih =>
    obtain ⟨k, v⟩ := hd
    by_cases h : rc = k
    · subst h
      simp [merge_resources_subtract, lookupRC, alist_get]
    · simp only [merge_resources_subtract, List.map_cons] at ih ⊢
      simp only [lookupRC, alist_get, if_neg h] at ih ⊢
      exact ih

theorem mem_allocs_without (current : List (String × RC)) (rp_uuid q : String)
    (res : RC) (hmem : (q, res) ∈ current) (hne : q ≠ rp_uuid) :
    AllocLine.mk q res ∈ allocs_without current rp_uuid := by
  unfold allocs_without
  exact List.mem_map_of_mem _ (List.mem_filter.mpr ⟨hmem, by simpa using hne⟩)

theorem allocs_without_rp (current : List (String × RC)) (rp_uuid : String) :
    ∀ line ∈ allocs_without current rp_uuid, line.rp ≠ rp_uuid := by
  intro line hline
  unfold allocs_without at hline
  rcases List.mem_map.mp hline with ⟨pa, hpa, rfl⟩
  have := (List.mem_filter.mp hpa).2
  simpa using this

/-- C4: if the named provider is absent from the current allocations the call
reports success without writing; with exactly one compute provider (CPU class
present) the named provider's line is kept with `resources` subtracted,
clamped at zero, other lines kept; otherwise the named provider's line is
dropped from the PUT payload and other lines kept. -/
theorem remove_provider_allocation_behavior (env : RemoveAllocEnv)
    (rp_uuid : String) (resources : RC)
    (hst : env.getStatus = 200) (hne : env.current_allocs ≠ []) :
    (alist_get rp_uuid env.current_allocs = none →
      remove_provider_from_instance_allocation env rp_uuid resources
        = (true, none))
    ∧ (∀ res0, alist_get rp_uuid env.current_allocs = some res0 →
        (compute_providers_of env.current_allocs).length = 1 →
        ∃ payload,
          (remove_provider_from_instance_allocation env rp_uuid resources).2
            = some payload
          ∧ AllocLine.mk rp_uuid (merge_resources_subtract res0 resources)
              ∈ payload
          ∧ (∀ rc, (lookupRC (merge_resources_subtract res0 resources) rc : Int)
              = max 0 ((lookupRC res0 rc : Int) - (lookupRC resources rc : Int)))
          ∧ (∀ q res, (q, res) ∈ env.current_allocs → q ≠ rp_uuid →
              AllocLine.mk q res ∈ payload))
    ∧ (∀ res0, alist_get rp_uuid env.current_allocs = some res0 →
        (compute_providers_of env.current_allocs).length ≠ 1 →
        ∃ payload,
          (remove_provider_from_instance_allocation env rp_uuid resources).2
            = some payload
          ∧ (∀ line ∈ payload, line.rp ≠ rp_uuid)
          ∧ (∀ q res, (q, res) ∈ env.current_allocs → q ≠ rp_uuid →
              AllocLine.mk q res ∈ payload)) := by
  have h1 : ¬ (env.getStatus ≠ 200) := by simp [hst]
  have h2 : ¬ (env.current_allocs.isEmpty = true) := by simpa using hne
  refine ⟨?_, ?_, ?_⟩
  · intro habs
    unfold remove_provider_from_instance_allocation
    rw [if_neg h1, if_neg h2, if_pos (by simp [habs])]
  · intro res0 hres0 hlen
    unfold remove_provider_from_instance_allocation
    rw [if_neg h1, if_neg h2, if_neg (by simp [hres0])]
    refine ⟨_, rfl, ?_⟩
    rw [if_pos hlen, hres0]
    refine ⟨List.mem_append_right _ (by simp), ?_, ?_⟩
    · intro rc
      rw [lookupRC_subtract]
      omega
    · intro q res hq hqne
      exact List.mem_append_left _ (mem_allocs_without _ _ _ _ hq hqne)
  · intro res0 hres0 hlen
    unfold remove_provider_from_instance_allocation
    rw [if_neg h1, if_neg h2, if_neg (by simp [hres0])]
    refine ⟨_, rfl, ?_⟩
    rw [if_neg hlen]
    exact ⟨allocs_without_rp _ _, fun q res hq hqne =>
      mem_allocs_without _ _ _ _ hq hqne⟩

/-- C4 witness: on a two-compute-provider consumer the named provider's line
is dropped; on a single-compute-provider consumer it is kept with the
resources subtracted, clamped at zero. -/
theorem remove_provider_allocation_behavior_witness :
    (∀ line ∈ (remove_provider_from_instance_allocation
        ⟨200, [("A", [("VCPU", 4)]), ("B", [("VCPU", 4)])], 204⟩
        "B" [("VCPU", 4)]).2.getD [], line.rp ≠ "B")
    ∧ AllocLine.mk "B" [("VCPU", 2), ("MEMORY_MB", 0)]
        ∈ (remove_provider_from_instance_allocation
            ⟨200, [("B", [("VCPU", 6), ("MEMORY_MB", 1024)])], 204⟩
            "B" [("VCPU", 4), ("MEMORY_MB", 2048)]).2.getD [] := by
  constructor
  · have h := (remove_provider_allocation_behavior
        ⟨200, [("A", [("VCPU", 4)]), ("B", [("VCPU", 4)])], 204⟩
        "B" [("VCPU", 4)] (by decide) (by decide)).2.2
        [("VCPU", 4)] (by decide) (by decide)
    rcases h with ⟨payload, hpayload, hdrop, _⟩
    rw [hpayload]
    exact hdrop
  · have h := (remove_provider_allocation_behavior
        ⟨200, [("B", [("VCPU", 6), ("MEMORY_MB", 1024)])], 204⟩
        "B" [("VCPU", 4), ("MEMORY_MB", 2048)] (by decide) (by decide)).2.1
        [("VCPU", 6), ("MEMORY_MB", 1024)] (by decide) (by decide)
    rcases h with ⟨payload, hpayload, hmem, _, _⟩
    rw [hpayload]
    have hval : merge_resources_subtract
        [("VCPU", 6), ("MEMORY_MB", 1024)] [("VCPU", 4), ("MEMORY_MB", 2048)]
        = [("VCPU", 2), ("MEMORY_MB", 0)] := by decide
    rw [hval] at hmem
    exact hmem

/-! ## `claim_resources` and the `@retries` decorator (report.py 103-121,
1266-1330) -/

/-- `'needle' in haystack` on character lists (Python substring test). -/
def containsSub (pat : List Char) : List Char → Bool
  | [] => pat.isEmpty
  | c :: rest => pat.isPrefixOf (c :: rest) || containsSub pat rest

/-- The error phrase matched in the PUT response body
(`'concurrently updated' in r.text`). -/
def concurrently_updated_pat : List Char := "concurrently updated".data

/-- An HTTP response: status code and body text. -/
structure HttpResp where
  status : Nat
  text : List Char

/-- The `Retry` exception raised to request a retry of the operation. -/
inductive RetryExc where
  | retry (operation : String)

/-- Environment for one `claim_resources` attempt: the GET of the consumer's
current allocations and the PUT response. -/
structure ClaimEnv where
  getStatus : Nat
  current_allocs : List (String × RC)
  putResp : HttpResp

/-- One attempt of `claim_resources` (the wrapped function body): returns the
outcome (`Retry` raised, or the boolean result) together with the
`allocations` list of the PUT payload. -/
def claim_resources_attempt (env : ClaimEnv) (alloc_request : List AllocLine) :
    Except RetryExc Bool × List AllocLine :=
  let payload :=
    if env.getStatus = 200 ∧ env.current_allocs ≠ [] then
      move_operation_alloc_request env.current_allocs alloc_request
    else alloc_request
  if env.putResp.status = 204 then (.ok true, payload)
  else if containsSub concurrently_updated_pat env.putResp.text then
    (.error (.retry "claim_resources"), payload)
  else (.ok false, payload)

/-- The `retries` decorator: run `f` up to three times while it raises
`Retry`; return the inner value on success, `False` when all three attempts
raised.  Also reports the number of attempts made. -/
def retries_run (f : Nat → Except RetryExc Bool) : Bool × Nat :=
  match f 0 with
  | .ok b => (b, 1)
  | .error _ =>
    match f 1 with
    | .ok b => (b, 2)
    | .error _ =>
      match f 2 with
      | .ok b => (b, 3)
      | .error _ => (false, 3)

/-- `claim_resources` = `retries(claim_resources_attempt)`; the environment
is indexed by attempt number. -/
def claim_resources (envs : Nat → ClaimEnv) (alloc_request : List AllocLine) :
    Bool × Nat :=
  retries_run (fun i => (claim_resources_attempt (envs i) alloc_request).1)

/-- C3: `claim_resources` returns `True` exactly when the PUT returns 204;
a non-204 response whose body contains the concurrent-update phrase is
retried, for 3 attempts total, then returns `False`; any other non-204
response returns `False` after exactly 1 attempt. -/
theorem claim_resources_retry_policy (env : ClaimEnv) (ar : List AllocLine) :
    ((claim_resources (fun _ => env) ar).1 = true ↔ env.putResp.status = 204)
    ∧ (env.putResp.status ≠ 204 →
        containsSub concurrently_updated_pat env.putResp.text = true →
        claim_resources (fun _ => env) ar = (false, 3))
    ∧ (env.putResp.status ≠ 204 →
        containsSub concurrently_updated_pat env.putResp.text = false →
        claim_resources (fun _ => env) ar = (false, 1)) := by
  by_cases h204 : env.putResp.status = 204
  · exact ⟨by simp [claim_resources, retries_run, claim_resources_attempt, h204],
      fun h _ => absurd h204 h, fun h _ => absurd h204 h⟩
  · by_cases hcu : containsSub concurrently_updated_pat env.putResp.text = true
    · refine ⟨?_, fun _ _ => ?_, fun _ hf => by rw [hcu] at hf; cases hf⟩
      · simp [claim_resources, retries_run, claim_resources_attempt, h204, hcu]
      · simp [claim_resources, retries_run, claim_resources_attempt, h204, hcu]
    · have hcu' : containsSub concurrently_updated_pat env.putResp.text = false := by
        revert hcu; cases containsSub concurrently_updated_pat env.putResp.text <;> simp
      refine ⟨?_, fun _ ht => absurd ht hcu, fun _ _ => ?_⟩
      · simp [claim_resources, retries_run, claim_resources_attempt, h204, hcu']
      · simp [claim_resources, retries_run, claim_resources_attempt, h204, hcu']

/-- C3 witness: a 409 whose body names a concurrent update is retried for 3
attempts then fails; a plain 409 fails after 1 attempt. -/
theorem claim_resources_retry_policy_witness :
    claim_resources (fun _ => ⟨404, [],
        ⟨409, "placement was concurrently updated".data⟩⟩) []
      = (false, 3)
    ∧ claim_resources (fun _ => ⟨404, [],
        ⟨409, "consumer generation conflict".data⟩⟩) []
      = (false, 1) :=
  ⟨(claim_resources_retry_policy
      ⟨404, [], ⟨409, "placement was concurrently updated".data⟩⟩ []).2.1
      (by decide) (by decide),
   (claim_resources_retry_policy
      ⟨404, [], ⟨409, "consumer generation conflict".data⟩⟩ []).2.2
      (by decide) (by decide)⟩

/-! ## Frame effect of `claim_resources` on the caller's request (report.py
1293-1313) -/

/-- The mutable JSON document holding an allocation request
(`{'allocations': [...], 'project_id': ..., 'user_id': ...}`). -/
structure AllocDoc where
  allocations : List AllocLine
  project_id : Option String
  user_id : Option String
  deriving DecidableEq, Repr

/-- Heap of live documents, addressed by index; models Python object
identity for the documents `claim_resources` touches. -/
abbrev DocHeap := List AllocDoc

def hget : DocHeap → Nat → Option AllocDoc
  | [], _ => none
  | d :: _, 0 => some d
  | _ :: h, n + 1 => hget h n

def hset : DocHeap → Nat → AllocDoc → DocHeap
  | [], _, _ => []
  | _ :: h, 0, d => d :: h
  | e :: h, n + 1, d => e :: hset h n d

theorem hget_lt_isSome (h : DocHeap) (a : Nat) (hlt : a < h.length) :
    (hget h a).isSome := by
  induction h generalizing a with
  | nil => cases hlt
  | cons hd tl ih =>
    cases a with
    | zero => rfl
    | succ n => exact ih n (Nat.lt_of_succ_lt_succ hlt)

theorem hget_append_lt (h tail : DocHeap) (a : Nat) (hlt : a < h.length) :
    hget (h ++ tail) a = hget h a := by
  induction h generalizing a with
  | nil => cases hlt
  | cons hd tl ih =>
    cases a with
    | zero => rfl
    | succ n => exact ih n (Nat.lt_of_succ_lt_succ hlt)

theorem hget_set_ne (h : DocHeap) (a b : Nat) (d : AllocDoc) (hne : a ≠ b) :
    hget (hset h b d) a = hget h a := by
  induction h generalizing a b with
  | nil => rfl
  | cons hd tl ih =>
    cases b with
    | zero =>
      cases a with
      | zero => exact absurd rfl hne
      | succ n => rfl
    | succ m =>
      cases a with
      | zero => rfl
      | succ n => exact ih n m (fun he => hne (by rw [he]))

/-- `claim_resources` with object mutation made explicit.  `copy.deepcopy`
allocates a fresh copy of the caller's request document at the end of the
heap; the move-merge result is likewise a fresh document; the
`payload['project_id'] = ...` and `payload['user_id'] = ...` assignments
mutate the payload document in place.  Returns the final heap and the
success flag. -/
def claim_resources_heap (h : DocHeap) (reqAddr : Nat)
    (project_id user_id : String) (env : ClaimEnv) : DocHeap × Bool :=
  match hget h reqAddr with
  | none => (h, false)
  | some reqDoc =>
    let h1 := h ++ [reqDoc]
    let hp :=
      if env.getStatus = 200 ∧ env.current_allocs ≠ [] then
        (h1 ++ [AllocDoc.mk
          (move_operation_alloc_request env.current_allocs reqDoc.allocations)
          none none], h1.length)
      else (h1, h.length)
    let pdoc := (hget hp.1 hp.2).getD reqDoc
    let h2 := hset hp.1 hp.2 ⟨pdoc.allocations, some project_id, pdoc.user_id⟩
    let pdoc2 := (hget h2 hp.2).getD reqDoc
    let h3 := hset h2 hp.2 ⟨pdoc2.allocations, pdoc2.project_id, some user_id⟩
    (h3, decide (env.putResp.status = 204))

/-- C9: `claim_resources` never mutates the caller-supplied allocation
request document: the heap cell holding it is unchanged by the call. -/
theorem claim_resources_preserves_request (h : DocHeap) (reqAddr : Nat)
    (project_id user_id : String) (env : ClaimEnv)
    (hlt : reqAddr < h.length) :
    hget (claim_resources_heap h reqAddr project_id user_id env).1 reqAddr
      = hget h reqAddr := by
  have hsome := hget_lt_isSome h reqAddr hlt
  cases hd : hget h reqAddr with
  | none => rw [hd] at hsome; cases hsome
  | some reqDoc =>
    simp only [claim_resources_heap, hd]
    by_cases hc : env.getStatus = 200 ∧ env.current_allocs ≠ []
    · rw [if_pos hc]
      have hlt1 : reqAddr < (h ++ [reqDoc]).length := by
        simp only [List.length_append, List.length_cons, List.length_nil]
        omega
      have hne : reqAddr ≠ (h ++ [reqDoc]).length := by
        simp only [List.length_append, List.length_cons, List.length_nil]
        omega
      rw [hget_set_ne _ _ _ _ hne, hget_set_ne _ _ _ _ hne,
        hget_append_lt _ _ _ hlt1, hget_append_lt _ _ _ hlt, hd]
    · rw [if_neg hc]
      have hne : reqAddr ≠ h.length := by omega
      rw [hget_set_ne _ _ _ _ hne, hget_set_ne _ _ _ _ hne,
        hget_append_lt _ _ _ hlt, hd]

/-- C9 witness: a concrete move-operation claim leaves the caller's request
document untouched. -/
theorem claim_resources_preserves_request_witness :
    hget (claim_resources_heap
        [⟨[⟨"B", [("VCPU", 4)]⟩], none, none⟩] 0 "proj" "user"
        ⟨200, [("A", [("VCPU", 4)])], ⟨204, []⟩⟩).1 0
      = some ⟨[⟨"B", [("VCPU", 4)]⟩], none, none⟩ := by
  rw [claim_resources_preserves_request
      [⟨[⟨"B", [("VCPU", 4)]⟩], none, none⟩] 0 "proj" "user"
      ⟨200, [("A", [("VCPU", 4)])], ⟨204, []⟩⟩ (by decide)]
  rfl

/-! ## Provider tree cache and client state -/

/-- An inventory document body: resource class → field → value
(fields `total`, `reserved`, `min_unit`, ...). -/
abbrev Inv := List (String × List (String × Int))

/-- Modelled from the spec: a cached resource-provider node of
`nova.compute.provider_tree.ProviderTree` (that module is not part of this
snapshot): name, generation, optional parent uuid, inventories, traits,
aggregates (spec section 3). -/
structure ProviderNode where
  name : String
  generation : Nat
  parent_uuid : Option String
  inventories : Inv
  traits : List String
  aggregates : List String
  deriving DecidableEq, Repr

/-- Modelled from the spec: the provider tree cache, keyed by uuid. -/
abbrev ProviderTree := List (String × ProviderNode)

/-- Exceptions raised by the embedded client operations. -/
inductive PErr where
  /-- provider-tree mutation of an unknown uuid (a programming error) -/
  | valueError
  /-- `exception.InventoryInUse` -/
  | inventoryInUse
  /-- `exception.ResourceProviderCreationFailed` -/
  | creationFailed
  /-- `exception.ResourceProviderRetrievalFailed` -/
  | retrievalFailed
  /-- subscripting the `None` returned by a failed re-fetch -/
  | typeError
  deriving DecidableEq, Repr

def tree_exists (t : ProviderTree) (uuid : String) : Bool :=
  (alist_get uuid t).isSome

/-- Modelled from the spec: `ProviderTree.new_root`; inserting an already
cached uuid is an error. -/
def tree_new_root (t : ProviderTree) (name uuid : String) (gen : Nat) :
    Except PErr ProviderTree :=
  if tree_exists t uuid then .error .valueError
  else .ok (t ++ [(uuid, ⟨name, gen, none, [], [], []⟩)])

/-- Modelled from the spec: `ProviderTree.new_child`; the parent must already
be cached. -/
def tree_new_child (t : ProviderTree) (name parent_uuid uuid : String)
    (gen : Nat) : Except PErr ProviderTree :=
  if tree_exists t uuid then .error .valueError
  else if tree_exists t parent_uuid then
    .ok (t ++ [(uuid, ⟨name, gen, some parent_uuid, [], [], []⟩)])
  else .error .valueError

/-- Fine-grained update of a cached node; a mutating operation on an unknown
uuid is a programming error. -/
def tree_update_with (t : ProviderTree) (uuid : String)
    (f : ProviderNode → ProviderNode) : Except PErr ProviderTree :=
  if tree_exists t uuid then .ok (alist_update uuid f t)
  else .error .valueError

/-- Modelled from the spec: `ProviderTree.update_inventory` sets the node's
inventories and generation; unknown uuid is an error. -/
def tree_update_inventory (t : ProviderTree) (uuid : String) (inv : Inv)
    (gen : Nat) : Except PErr ProviderTree :=
  tree_update_with t uuid (fun n => {n with inventories := inv, generation := gen})

/-- Modelled from the spec: `ProviderTree.update_aggregates`; the generation
is set only when one is supplied. -/
def tree_update_aggregates (t : ProviderTree) (uuid : String)
    (aggs : List String) (gen : Option Nat) : Except PErr ProviderTree :=
  tree_update_with t uuid
    (fun n => {n with aggregates := aggs, generation := gen.getD n.generation})

/-- Modelled from the spec: `ProviderTree.update_traits`; the generation is
set only when one is supplied. -/
def tree_update_traits (t : ProviderTree) (uuid : String)
    (traits : List String) (gen : Option Nat) : Except PErr ProviderTree :=
  tree_update_with t uuid
    (fun n => {n with traits := traits, generation := gen.getD n.generation})

theorem tree_update_with_ok (t : ProviderTree) (uuid : String)
    (f : ProviderNode → ProviderNode) (hex : tree_exists t uuid = true) :
    tree_update_with t uuid f = .ok (alist_update uuid f t) := by
  unfold tree_update_with; rw [if_pos hex]

theorem tree_update_with_err (t : ProviderTree) (uuid : String)
    (f : ProviderNode → ProviderNode) (hex : tree_exists t uuid = false) :
    tree_update_with t uuid f = .error .valueError := by
  unfold tree_update_with; rw [if_neg (by simp [hex])]

/-- One widening step of the descendant set: add every node whose parent is
already in the set. -/
def tree_remove_frontier (t : ProviderTree) (rem : List String) : List String :=
  rem ++ (t.filter (fun p =>
    match p.2.parent_uuid with
    | some q => decide (q ∈ rem) && decide (p.1 ∉ rem)
    | none => false)).map Prod.fst

/-- All uuids in the subtree rooted at `uuid` (fixpoint reached within
`t.length` widening steps). -/
def tree_descendants (t : ProviderTree) (uuid : String) : List String :=
  (List.range t.length).foldl (fun rem _ => tree_remove_frontier t rem) [uuid]

/-- Modelled from the spec: `ProviderTree.remove` removes the uuid and its
subtree; unknown uuid is an error. -/
def tree_remove (t : ProviderTree) (uuid : String) : Except PErr ProviderTree :=
  if tree_exists t uuid then
    .ok (t.filter (fun p => decide (p.1 ∉ tree_descendants t uuid)))
  else .error .valueError

/-- Structural (order-insensitive) equality of inventory documents. -/
def invEqb (a b : Inv) : Bool :=
  a.all (fun p => decide (alist_get p.1 b = some p.2))
    && b.all (fun p => decide (alist_get p.1 a = some p.2))

/-- Modelled from the spec: `ProviderTree.has_inventory_changed`: structural
inequality against the cached inventory; unknown uuid is an error. -/
def tree_has_inventory_changed (t : ProviderTree) (uuid : String) (inv : Inv) :
    Except PErr Bool :=
  match alist_get uuid t with
  | none => .error .valueError
  | some n => .ok (!(invEqb n.inventories inv))

/-- Client-wide mutable state: the provider tree cache and the
per-provider association-refresh timestamps. -/
structure ClientState where
  tree : ProviderTree
  association_refresh_time : List (String × Nat)
  deriving DecidableEq, Repr

theorem tree_exists_alist_update (t : ProviderTree) (k : String)
    (f : ProviderNode → ProviderNode) (u : String) :
    tree_exists (alist_update k f t) u = tree_exists t u := by
  unfold tree_exists
  by_cases h : u = k
  · subst h
    rw [alist_get_update_self]
    cases alist_get u t <;> rfl
  · rw [alist_get_update_ne h]

theorem alist_get_append_right_none {β : Type} (a : List (String × β))
    (k : String) (v : β) (h : alist_get k a = none) :
    alist_get k (a ++ [(k, v)]) = some v := by
  induction a with
  | nil => simp [alist_get]
  | cons hd tl ih =>
    obtain ⟨k', v'⟩ := hd
    by_cases hk : k = k'
    · subst hk; simp [alist_get] at h
    · simp only [alist_get, if_neg hk] at h
      simp only [List.cons_append, alist_get, if_neg hk]
      exact ih h

theorem alist_get_filter_out {β : Type} (l : List (String × β)) (uuid : String)
    (pred : String × β → Bool) (h : ∀ v, pred (uuid, v) = false) :
    alist_get uuid (l.filter pred) = none := by
  induction l with
  | nil => rfl
  | cons hd tl ih =>
    obtain ⟨k, v⟩ := hd
    rw [List.filter_cons]
    by_cases hk : uuid = k
    · subst hk
      have hfalse : ¬ (pred (uuid, v) = true) := by
        rw [h v]; exact Bool.false_ne_true
      rw [if_neg hfalse]
      exact ih
    · by_cases hp : pred (k, v) = true
      · rw [if_pos hp]
        simp only [alist_get, if_neg hk]
        exact ih
      · rw [if_neg hp]
        exact ih

theorem mem_foldl_frontier (t : ProviderTree) (x : String)
    (l : List Nat) (rem : List String) (hx : x ∈ rem) :
    x ∈ l.foldl (fun rem _ => tree_remove_frontier t rem) rem := by
  induction l generalizing rem with
  | nil => exact hx
  | cons hd tl ih =>
    simp only [List.foldl_cons]
    exact ih _ (List.mem_append_left _ hx)

/-- Removing a cached provider removes its cache entry. -/
theorem tree_remove_removes (t : ProviderTree) (uuid : String)
    (hex : tree_exists t uuid = true) :
    ∃ t', tree_remove t uuid = .ok t' ∧ alist_get uuid t' = none := by
  unfold tree_remove
  rw [if_pos hex]
  refine ⟨_, rfl, ?_⟩
  apply alist_get_filter_out
  intro v
  have hmem : uuid ∈ tree_descendants t uuid :=
    mem_foldl_frontier t uuid _ [uuid] (by simp)
  simp [hmem]

/-! ## Session recreation flushes the cache (report.py 60-94, 271-282) -/

/-- `_create_client` (report.py 271-282): flush the provider tree and the
association-refresh timestamps and build a fresh transport session. -/
def create_client (_st : ClientState) : ClientState := ⟨[], []⟩

/-- The keystoneauth exception classes caught by `safe_connect`. -/
inductive KsExc where
  | endpointNotFound
  | missingAuthPlugin
  | unauthorized
  | discoveryFailure
  | connectFailure
  deriving DecidableEq, Repr

/-- `safe_connect` (report.py 60-94) exception handling: on
`EndpointNotFound` the client session is recreated (`self._client =
self._create_client()`); the other caught transport failures only log. -/
def safe_connect_on_exc (st : ClientState) (e : KsExc) : ClientState :=
  match e with
  | .endpointNotFound => create_client st
  | _ => st

/-- C8: recreating the transport session — including the recreation triggered
by an `EndpointNotFound` caught by `safe_connect` — flushes the entire
provider tree cache and the staleness-timer table: no cached provider or
refresh timestamp survives. -/
theorem session_recreation_flushes_cache (st : ClientState) :
    (create_client st).tree = []
    ∧ (create_client st).association_refresh_time = []
    ∧ (∀ u, tree_exists (safe_connect_on_exc st .endpointNotFound).tree u = false
        ∧ alist_get u
            (safe_connect_on_exc st .endpointNotFound).association_refresh_time
          = none) :=
  ⟨rfl, rfl, fun _ => ⟨rfl, rfl⟩⟩

/-! ## `_refresh_and_get_inventory` (report.py 654-671) -/

/-- The decoded body of `GET /resource_providers/{u}/inventories`. -/
structure InvDoc where
  resource_provider_generation : Nat
  inventories : Inv
  deriving DecidableEq, Repr

/-- `_refresh_and_get_inventory`: fetch the current inventory; when the fetch
succeeded, write the fetched inventory and generation into the cached
provider tree only under `if cur_gen:` (generation truthy, i.e. nonzero), and
return the fetched document either way.  Errors carry the state at raise
time. -/
def refresh_and_get_inventory (getInv : Option InvDoc) (st : ClientState)
    (rp_uuid : String) : Except (ClientState × PErr) (ClientState × Option InvDoc) :=
  match getInv with
  | none => .ok (st, none)
  | some curr =>
    if curr.resource_provider_generation ≠ 0 then
      match tree_update_inventory st.tree rp_uuid curr.inventories
          curr.resource_provider_generation with
      | .error e => .error (st, e)
      | .ok t => .ok ({st with tree := t}, some curr)
    else .ok (st, some curr)

/-- C10: the fetched inventory and generation are written into the cached
provider tree only when the fetched generation is nonzero; at generation 0
the cache is left unchanged while the fetched document is still returned. -/
theorem refresh_inventory_generation_gate (st : ClientState) (rp_uuid : String)
    (doc : InvDoc) :
    (doc.resource_provider_generation = 0 →
      refresh_and_get_inventory (some doc) st rp_uuid = .ok (st, some doc))
    ∧ (doc.resource_provider_generation ≠ 0 →
        tree_exists st.tree rp_uuid = true →
        ∃ st', refresh_and_get_inventory (some doc) st rp_uuid
            = .ok (st', some doc)
          ∧ st'.association_refresh_time = st.association_refresh_time
          ∧ ∃ node, alist_get rp_uuid st'.tree = some node
              ∧ node.inventories = doc.inventories
              ∧ node.generation = doc.resource_provider_generation) := by
  constructor
  · intro h0
    simp [refresh_and_get_inventory, h0]
  · intro hgen hex
    simp only [refresh_and_get_inventory, tree_update_inventory]
    rw [if_pos hgen, tree_update_with_ok _ _ _ hex]
    refine ⟨_, rfl, rfl, ?_⟩
    rw [alist_get_update_self]
    cases hn : alist_get rp_uuid st.tree with
    | none =>
      unfold tree_exists at hex
      rw [hn] at hex
      cases hex
    | some n => exact ⟨_, rfl, rfl, rfl⟩

/-- C10 witness: a fetched document at generation 0 leaves the cache
untouched and is still returned. -/
theorem refresh_inventory_generation_gate_witness :
    refresh_and_get_inventory (some ⟨0, [("VCPU", [("total", 4)])]⟩)
        ⟨[("cn", ⟨"cn", 7, none, [("VCPU", [("total", 2)])], [], []⟩)], []⟩ "cn"
      = .ok (⟨[("cn", ⟨"cn", 7, none, [("VCPU", [("total", 2)])], [], []⟩)], []⟩,
          some ⟨0, [("VCPU", [("total", 4)])]⟩) :=
  (refresh_inventory_generation_gate _ "cn" _).1 rfl

/-! ## `_refresh_associations` and `_associations_stale` (report.py 673-743) -/

/-- Seconds between attempts to refresh a provider's aggregates and traits. -/
def ASSOCIATION_REFRESH : Nat := 300

/-- `_associations_stale(uuid)` with the clock explicit: stale when the
recorded refresh time (0 when never recorded, `dict.get(uuid, 0)`) is more
than `ASSOCIATION_REFRESH` seconds before `now`. -/
def associations_stale (now : Nat) (st : ClientState) (uuid : String) : Bool :=
  decide (now - (alist_get uuid st.association_refresh_time).getD 0
    > ASSOCIATION_REFRESH)

/-- A resource provider record as returned by the placement API. -/
structure RpRec where
  uuid : String
  name : String
  generation : Nat
  deriving DecidableEq, Repr

/-- Environment for association refresh: the clock (`time.time()`, modelled
as a single instant for the call) and the per-provider GET responses.
`aggsResp`/`traitsResp` return `none` when the (safe_connect-wrapped) GET
failed; `sharingResp` models `GET /resource_providers?member_of=...`, whose
failure raises `ResourceProviderRetrievalFailed`. -/
structure RefreshEnv where
  time : Nat
  aggsResp : String → Option (List String)
  traitsResp : String → Option (List String)
  sharingResp : List String → Except PErr (List RpRec)

/-- Outcome of `_refresh_associations`: the resulting state, whether the
refresh body ran at all, and the exception (if one propagated; mutations made
before the raise persist in `state`). -/
structure RefreshOut where
  state : ClientState
  performed : Bool
  err : Option PErr

/-- The aggregate- and trait-refresh steps shared by both recursion levels of
`_refresh_associations`: fetch aggregates (write into cache when the fetch
succeeded), fetch traits (likewise).  Both fetches are environment lookups,
so the two responses are case-split jointly; an aggregate-update failure
still precedes any trait update.  Returns the fetched aggregates for the
sharing-provider fetch. -/
def refresh_own_associations (env : RefreshEnv) (st : ClientState)
    (rp_uuid : String) (gen : Option Nat) :
    Except (ClientState × PErr) (ClientState × Option (List String)) :=
  match env.aggsResp rp_uuid, env.traitsResp rp_uuid with
  | none, none => .ok ({st with tree := st.tree}, none)
  | none, some traits =>
    match tree_update_traits st.tree rp_uuid traits gen with
    | .error e => .error ({st with tree := st.tree}, e)
    | .ok t2 => .ok ({st with tree := t2}, none)
  | some aggs, none =>
    match tree_update_aggregates st.tree rp_uuid aggs gen with
    | .error e => .error (st, e)
    | .ok t1 => .ok ({st with tree := t1}, some aggs)
  | some aggs, some traits =>
    match tree_update_aggregates st.tree rp_uuid aggs gen with
    | .error e => .error (st, e)
    | .ok t1 =>
      match tree_update_traits t1 rp_uuid traits gen with
      | .error e => .error ({st with tree := t1}, e)
      | .ok t2 => .ok ({st with tree := t2}, some aggs)

/-- `_refresh_associations(rp_uuid, generation, force, refresh_sharing=False)`:
refresh the provider's own aggregates and traits when forced or stale, then
record the completion time. -/
def refresh_associations_noshare (env : RefreshEnv) (st : ClientState)
    (rp_uuid : String) (gen : Option Nat) (force : Bool) : RefreshOut :=
  if force || associations_stale env.time st rp_uuid then
    match refresh_own_associations env st rp_uuid gen with
    | .error (st', e) => ⟨st', true, some e⟩
    | .ok (st1, _) =>
      ⟨{st1 with association_refresh_time :=
          alist_put rp_uuid env.time st1.association_refresh_time}, true, none⟩
  else ⟨st, false, none⟩

/-- `_get_providers_in_aggregates(aggs)`: `if not agg_uuids: return []` —
a failed aggregate fetch (`None`) and an empty set short-circuit to the
empty list without a network call. -/
def providers_in_aggregates (env : RefreshEnv) (aggs : Option (List String)) :
    Except PErr (List RpRec) :=
  match aggs with
  | none => .ok []
  | some [] => .ok []
  | some l => env.sharingResp l

/-- The `for rp in self._get_providers_in_aggregates(aggs)` loop: insert each
unknown sharing provider as a new cache root, then refresh its own
associations with sharing refresh disabled.  An exception stops the loop with
the state reached so far. -/
def sharing_refresh_fold (env : RefreshEnv) (force : Bool) :
    List RpRec → ClientState → Except (ClientState × PErr) ClientState
  | [], st => .ok st
  | r :: rest, st =>
    match
      (if tree_exists st.tree r.uuid then .ok st
       else
         match tree_new_root st.tree r.name r.uuid r.generation with
         | .error e => .error (st, e)
         | .ok t => .ok {st with tree := t} :
       Except (ClientState × PErr) ClientState) with
    | .error e => .error e
    | .ok s1 =>
      match (refresh_associations_noshare env s1 r.uuid none force).err with
      | some e => .error ((refresh_associations_noshare env s1 r.uuid none force).state, e)
      | none => sharing_refresh_fold env force rest
          (refresh_associations_noshare env s1 r.uuid none force).state

/-- `_refresh_associations(rp_uuid, generation, force)` with
`refresh_sharing=True` (the default): refresh the provider's aggregates and
traits, refresh each aggregate-linked sharing provider, and record the
completion time only after all of it succeeded. -/
def refresh_associations (env : RefreshEnv) (st : ClientState)
    (rp_uuid : String) (gen : Option Nat) (force : Bool) : RefreshOut :=
  if force || associations_stale env.time st rp_uuid then
    match refresh_own_associations env st rp_uuid gen with
    | .error (st', e) => ⟨st', true, some e⟩
    | .ok (st1, aggs) =>
      match providers_in_aggregates env aggs with
      | .error e => ⟨st1, true, some e⟩
      | .ok lst =>
        match sharing_refresh_fold env force lst st1 with
        | .error (st2, e) => ⟨st2, true, some e⟩
        | .ok st2 =>
          ⟨{st2 with association_refresh_time :=
              alist_put rp_uuid env.time st2.association_refresh_time},
            true, none⟩
  else ⟨st, false, none⟩

/-- `refresh_own_associations` never touches the association timestamps, and
on success returns the fetched aggregates. -/
theorem refresh_own_cases (env : RefreshEnv) (st : ClientState)
    (rp_uuid : String) (gen : Option Nat) :
    (∃ st1, refresh_own_associations env st rp_uuid gen
        = .ok (st1, env.aggsResp rp_uuid)
      ∧ st1.association_refresh_time = st.association_refresh_time)
    ∨ (∃ st' e, refresh_own_associations env st rp_uuid gen = .error (st', e)
      ∧ st'.association_refresh_time = st.association_refresh_time) := by
  cases ha : env.aggsResp rp_uuid with
  | none =>
    cases htr : env.traitsResp rp_uuid with
    | none =>
      left
      have heq : refresh_own_associations env st rp_uuid gen
          = .ok ({st with tree := st.tree}, none) := by
        unfold refresh_own_associations
        rw [ha, htr]
      exact ⟨_, heq, rfl⟩
    | some traits =>
      by_cases hex : tree_exists st.tree rp_uuid
      · left
        have heq : refresh_own_associations env st rp_uuid gen
            = .ok (ClientState.mk
                (alist_update rp_uuid
                  (fun n => {n with traits := traits, generation := gen.getD n.generation}) st.tree)
                st.association_refresh_time, none) := by
          unfold refresh_own_associations
          rw [ha, htr]
          simp only []
          unfold tree_update_traits
          rw [tree_update_with_ok _ _ _ hex]
        exact ⟨_, heq, rfl⟩
      · right
        have heq : refresh_own_associations env st rp_uuid gen
            = .error ({st with tree := st.tree}, .valueError) := by
          unfold refresh_own_associations
          rw [ha, htr]
          simp only []
          unfold tree_update_traits
          rw [tree_update_with_err _ _ _ (by simpa using hex)]
        exact ⟨_, _, heq, rfl⟩
  | some aggs =>
    by_cases hex : tree_exists st.tree rp_uuid
    · have hex2 : tree_exists (alist_update rp_uuid
          (fun n => {n with aggregates := aggs, generation := gen.getD n.generation})
          st.tree) rp_uuid = true := by
        rw [tree_exists_alist_update]; exact hex
      cases htr : env.traitsResp rp_uuid with
      | none =>
        left
        have heq : refresh_own_associations env st rp_uuid gen
            = .ok (ClientState.mk
                (alist_update rp_uuid
                  (fun n => {n with aggregates := aggs, generation := gen.getD n.generation}) st.tree)
                st.association_refresh_time, some aggs) := by
          unfold refresh_own_associations
          rw [ha, htr]
          simp only []
          unfold tree_update_aggregates
          rw [tree_update_with_ok _ _ _ hex]
        exact ⟨_, heq, rfl⟩
      | some traits =>
        left
        have heq : refresh_own_associations env st rp_uuid gen
            = .ok (ClientState.mk
                (alist_update rp_uuid
                  (fun n => {n with traits := traits, generation := gen.getD n.generation})
                  (alist_update rp_uuid
                    (fun n => {n with aggregates := aggs, generation := gen.getD n.generation}) st.tree))
                st.association_refresh_time,
              some aggs) := by
          unfold refresh_own_associations
          rw [ha, htr]
          simp only []
          unfold tree_update_aggregates
          rw [tree_update_with_ok _ _ _ hex]
          simp only []
          unfold tree_update_traits
          rw [tree_update_with_ok _ _ _ hex2]
        exact ⟨_, heq, rfl⟩
    · right
      cases htr : env.traitsResp rp_uuid with
      | none =>
        have heq : refresh_own_associations env st rp_uuid gen
            = .error (st, .valueError) := by
          unfold refresh_own_associations
          rw [ha, htr]
          simp only []
          unfold tree_update_aggregates
          rw [tree_update_with_err _ _ _ (by simpa using hex)]
        exact ⟨_, _, heq, rfl⟩
      | some traits =>
        have heq : refresh_own_associations env st rp_uuid gen
            = .error (st, .valueError) := by
          unfold refresh_own_associations
          rw [ha, htr]
          simp only []
          unfold tree_update_aggregates
          rw [tree_update_with_err _ _ _ (by simpa using hex)]
        exact ⟨_, _, heq, rfl⟩

/-- On a provider present in the cache, `refresh_own_associations` succeeds,
leaves the timestamps alone and preserves cache membership. -/
theorem refresh_own_ok_of_exists (env : RefreshEnv) (st : ClientState)
    (rp_uuid : String) (gen : Option Nat)
    (hex : tree_exists st.tree rp_uuid = true) :
    ∃ st1, refresh_own_associations env st rp_uuid gen
        = .ok (st1, env.aggsResp rp_uuid)
      ∧ st1.association_refresh_time = st.association_refresh_time
      ∧ ∀ u, tree_exists st1.tree u = tree_exists st.tree u := by
  cases ha : env.aggsResp rp_uuid with
  | none =>
    cases htr : env.traitsResp rp_uuid with
    | none =>
      have heq : refresh_own_associations env st rp_uuid gen
          = .ok ({st with tree := st.tree}, none) := by
        unfold refresh_own_associations
        rw [ha, htr]
      exact ⟨_, heq, rfl, fun u => rfl⟩
    | some traits =>
      have heq : refresh_own_associations env st rp_uuid gen
          = .ok (ClientState.mk
              (alist_update rp_uuid
                (fun n => {n with traits := traits, generation := gen.getD n.generation}) st.tree)
              st.association_refresh_time, none) := by
        unfold refresh_own_associations
        rw [ha, htr]
        simp only []
        unfold tree_update_traits
        rw [tree_update_with_ok _ _ _ hex]
      exact ⟨_, heq, rfl, fun u => tree_exists_alist_update _ _ _ u⟩
  | some aggs =>
    have hex2 : tree_exists (alist_update rp_uuid
        (fun n => {n with aggregates := aggs, generation := gen.getD n.generation})
        st.tree) rp_uuid = true := by
      rw [tree_exists_alist_update]; exact hex
    cases htr : env.traitsResp rp_uuid with
    | none =>
      have heq : refresh_own_associations env st rp_uuid gen
          = .ok (ClientState.mk
              (alist_update rp_uuid
                (fun n => {n with aggregates := aggs, generation := gen.getD n.generation}) st.tree)
              st.association_refresh_time, some aggs) := by
        unfold refresh_own_associations
        rw [ha, htr]
        simp only []
        unfold tree_update_aggregates
        rw [tree_update_with_ok _ _ _ hex]
      exact ⟨_, heq, rfl, fun u => tree_exists_alist_update _ _ _ u⟩
    | some traits =>
      have heq : refresh_own_associations env st rp_uuid gen
          = .ok (ClientState.mk
              (alist_update rp_uuid
                (fun n => {n with traits := traits, generation := gen.getD n.generation})
                (alist_update rp_uuid
                  (fun n => {n with aggregates := aggs, generation := gen.getD n.generation}) st.tree))
              st.association_refresh_time,
            some aggs) := by
        unfold refresh_own_associations
        rw [ha, htr]
        simp only []
        unfold tree_update_aggregates
        rw [tree_update_with_ok _ _ _ hex]
        simp only []
        unfold tree_update_traits
        rw [tree_update_with_ok _ _ _ hex2]
      refine ⟨_, heq, rfl, fun u => ?_⟩
      show tree_exists (alist_update rp_uuid _ (alist_update rp_uuid _ st.tree)) u
        = tree_exists st.tree u
      rw [tree_exists_alist_update, tree_exists_alist_update]

/-- On a provider present in the cache, the sharing-disabled refresh never
raises and preserves cache membership. -/
theorem noshare_ok_of_exists (env : RefreshEnv) (s : ClientState) (rp : String)
    (gen : Option Nat) (force : Bool) (hex : tree_exists s.tree rp = true) :
    (refresh_associations_noshare env s rp gen force).err = none
    ∧ ∀ u, tree_exists (refresh_associations_noshare env s rp gen force).state.tree u
        = tree_exists s.tree u := by
  unfold refresh_associations_noshare
  by_cases hc : (force || associations_stale env.time s rp) = true
  · rw [if_pos hc]
    obtain ⟨st1, hok, _, hexs⟩ := refresh_own_ok_of_exists env s rp gen hex
    rw [hok]
    exact ⟨rfl, fun u => hexs u⟩
  · rw [if_neg hc]
    exact ⟨rfl, fun u => rfl⟩

/-- The sharing-provider refresh loop never raises: unknown providers are
inserted as roots before their sharing-disabled refresh, which cannot fail
on a cached provider. -/
theorem sharing_fold_ok (env : RefreshEnv) (force : Bool) (lst : List RpRec) :
    ∀ st : ClientState, ∃ st2, sharing_refresh_fold env force lst st = .ok st2 := by
  induction lst with
  | nil => intro st; exact ⟨st, rfl⟩
  | cons r rest ih =>
    intro st
    by_cases hex : tree_exists st.tree r.uuid
    · have hns := noshare_ok_of_exists env st r.uuid none force hex
      obtain ⟨st2, h2⟩ := ih (refresh_associations_noshare env st r.uuid none force).state
      refine ⟨st2, ?_⟩
      unfold sharing_refresh_fold
      rw [if_pos hex]
      simp only []
      rw [hns.1]
      exact h2
    · have hexf : tree_exists st.tree r.uuid = false := by simpa using hex
      have hget : alist_get r.uuid st.tree = none := by
        unfold tree_exists at hexf
        cases hg : alist_get r.uuid st.tree with
        | none => rfl
        | some n => rw [hg] at hexf; cases hexf
      have hnr : tree_new_root st.tree r.name r.uuid r.generation
          = .ok (st.tree ++ [(r.uuid, ⟨r.name, r.generation, none, [], [], []⟩)]) := by
        unfold tree_new_root; rw [if_neg (by simp [hexf])]
      have hex1 : tree_exists
          (st.tree ++ [(r.uuid, ⟨r.name, r.generation, none, [], [], []⟩)])
          r.uuid = true := by
        unfold tree_exists
        rw [alist_get_append_right_none _ _ _ hget]
        rfl
      have hns := noshare_ok_of_exists env
        {st with tree := st.tree ++ [(r.uuid, ⟨r.name, r.generation, none, [], [], []⟩)]}
        r.uuid none force hex1
      obtain ⟨st2, h2⟩ := ih (refresh_associations_noshare env
        {st with tree := st.tree ++ [(r.uuid, ⟨r.name, r.generation, none, [], [], []⟩)]}
        r.uuid none force).state
      refine ⟨st2, ?_⟩
      unfold sharing_refresh_fold
      rw [if_neg (by simp [hexf]), hnr]
      simp only []
      rw [hns.1]
      exact h2

/-- C7 (amended): the refresh body runs exactly when forced or when the clock
exceeds the recorded refresh time (0 when never recorded) by more than the
300-second interval; on any raise the provider's recorded timestamp is
unchanged; when the refresh ran and nothing raised, the timestamp is the
completion time. -/
theorem refresh_staleness_and_record (env : RefreshEnv) (st : ClientState)
    (rp_uuid : String) (gen : Option Nat) (force : Bool) :
    ((refresh_associations env st rp_uuid gen force).performed = true ↔
      (force = true ∨
        env.time - (alist_get rp_uuid st.association_refresh_time).getD 0
          > ASSOCIATION_REFRESH))
    ∧ (∀ e, (refresh_associations env st rp_uuid gen force).err = some e →
        alist_get rp_uuid
            (refresh_associations env st rp_uuid gen force).state.association_refresh_time
          = alist_get rp_uuid st.association_refresh_time)
    ∧ ((refresh_associations env st rp_uuid gen force).err = none →
        (refresh_associations env st rp_uuid gen force).performed = true →
        alist_get rp_uuid
            (refresh_associations env st rp_uuid gen force).state.association_refresh_time
          = some env.time) := by
  by_cases hc : (force || associations_stale env.time st rp_uuid) = true
  · have hor : force = true ∨ associations_stale env.time st rp_uuid = true := by
      simpa using hc
    have hP : force = true ∨
        env.time - (alist_get rp_uuid st.association_refresh_time).getD 0
          > ASSOCIATION_REFRESH := by
      rcases hor with hf | hs
      · exact Or.inl hf
      · exact Or.inr (of_decide_eq_true hs)
    rcases refresh_own_cases env st rp_uuid gen with
      ⟨st1, hok, hassoc⟩ | ⟨st', e, herr, hassoc⟩
    · cases hpa : providers_in_aggregates env (env.aggsResp rp_uuid) with
      | error e2 =>
        have hout : refresh_associations env st rp_uuid gen force
            = ⟨st1, true, some e2⟩ := by
          unfold refresh_associations
          rw [if_pos hc, hok]
          simp only []
          rw [hpa]
        rw [hout]
        refine ⟨⟨fun _ => hP, fun _ => rfl⟩, ?_, ?_⟩
        · intro e3 _; rw [hassoc]
        · intro hnone; simp at hnone
      | ok lst =>
        obtain ⟨st2, hsf⟩ := sharing_fold_ok env force lst st1
        have hout : refresh_associations env st rp_uuid gen force
            = ⟨{st2 with association_refresh_time :=
                alist_put rp_uuid env.time st2.association_refresh_time},
              true, none⟩ := by
          unfold refresh_associations
          rw [if_pos hc, hok]
          simp only []
          rw [hpa]
          simp only []
          rw [hsf]
        rw [hout]
        refine ⟨⟨fun _ => hP, fun _ => rfl⟩, ?_, ?_⟩
        · intro e3 habs; simp at habs
        · intro _ _
          exact alist_get_put_self _ _ _
    · have hout : refresh_associations env st rp_uuid gen force
          = ⟨st', true, some e⟩ := by
        unfold refresh_associations
        rw [if_pos hc, herr]
      rw [hout]
      refine ⟨⟨fun _ => hP, fun _ => rfl⟩, ?_, ?_⟩
      · intro e3 _; rw [hassoc]
      · intro hnone; simp at hnone
  · have hout : refresh_associations env st rp_uuid gen force
        = ⟨st, false, none⟩ := by
      unfold refresh_associations
      rw [if_neg hc]
    have hnP : ¬ (force = true ∨
        env.time - (alist_get rp_uuid st.association_refresh_time).getD 0
          > ASSOCIATION_REFRESH) := by
      intro hP
      apply hc
      rcases hP with hf | hs
      · rw [hf]; rfl
      · have hst : associations_stale env.time st rp_uuid = true :=
          decide_eq_true hs
        rw [hst, Bool.or_true]
    rw [hout]
    refine ⟨⟨fun h => absurd h (by simp), fun hP => (hnP hP).elim⟩, ?_, ?_⟩
    · intro e3 habs; simp at habs
    · intro _ hperf; simp at hperf

/-- C7 counterexample to the claim as stated: with no refresh ever recorded
for the provider, `force` unset and a clock within 300 seconds of the epoch,
no refresh is performed — `dict.get(uuid, 0)` makes a missing record behave
like a refresh at time 0, so "no refresh has ever been recorded" alone does
not trigger a refresh. -/
theorem refresh_staleness_counterexample :
    alist_get "cn" (ClientState.mk [] []).association_refresh_time = none
    ∧ (refresh_associations
        ⟨100, fun _ => none, fun _ => none, fun _ => .ok []⟩
        ⟨[], []⟩ "cn" none false).performed = false :=
  ⟨rfl, rfl⟩

/-- C7 witness: a forced refresh on a cached provider runs and records the
completion time. -/
theorem refresh_staleness_and_record_witness :
    (refresh_associations ⟨1000, fun _ => none, fun _ => none, fun _ => .ok []⟩
        ⟨[("cn", ⟨"cn", 1, none, [], [], []⟩)], []⟩ "cn" none true).performed = true
    ∧ alist_get "cn" (refresh_associations
        ⟨1000, fun _ => none, fun _ => none, fun _ => .ok []⟩
        ⟨[("cn", ⟨"cn", 1, none, [], [], []⟩)], []⟩ "cn" none
        true).state.association_refresh_time
      = some 1000 := by
  have h := refresh_staleness_and_record
      ⟨1000, fun _ => none, fun _ => none, fun _ => .ok []⟩
      ⟨[("cn", ⟨"cn", 1, none, [], [], []⟩)], []⟩ "cn" none true
  exact ⟨h.1.mpr (Or.inl rfl), h.2.2 rfl (h.1.mpr (Or.inl rfl))⟩

/-! ## `_ensure_resource_provider` (report.py 592-645) and the inventory
update protocol (report.py 745-872) -/

/-- Outcome of `GET /resource_providers/{uuid}` as seen by
`_get_resource_provider`: found (200), not found (404), or any other status
(raises `ResourceProviderRetrievalFailed`). -/
inductive GetRPResp where
  | found (r : RpRec)
  | notFound
  | failure
  deriving Repr

/-- Outcome of `POST /resource_providers` as seen by
`_create_resource_provider`: created (201), a 409 without a name conflict
(another thread created the same uuid — re-fetch), or any other failure
(raises `ResourceProviderCreationFailed`). -/
inductive CreateRPResp where
  | created
  | conflictRace
  | hardFailure
  deriving Repr

/-- Environment for one `_update_inventory_attempt`: the inventory GET, the
inventory PUT response (and the generation its 200 body carries), the
provider GET/POST responses used by `_ensure_resource_provider` after a
conflict, and the refresh environment for `_refresh_associations`. -/
structure AttemptEnv where
  getInventory : Option InvDoc
  putResp : HttpResp
  putNewGen : Nat
  getProvider : GetRPResp
  createProvider : CreateRPResp
  getProvider2 : GetRPResp
  refresh : RefreshEnv

/-- `_get_resource_provider(uuid)`: 200 → record, 404 → `None`, other →
raise `ResourceProviderRetrievalFailed`. -/
def get_resource_provider (resp : GetRPResp) (st : ClientState) :
    Except (ClientState × PErr) (Option RpRec) :=
  match resp with
  | .found r => .ok (some r)
  | .notFound => .ok none
  | .failure => .error (st, .retrievalFailed)

/-- `_create_resource_provider(uuid, name)`: 201 → fresh record at
generation 0; a racing 409 → re-fetch the record (which may itself be
`None` or fail); other → raise `ResourceProviderCreationFailed`. -/
def create_resource_provider (env : AttemptEnv) (st : ClientState)
    (uuid name : String) : Except (ClientState × PErr) (Option RpRec) :=
  match env.createProvider with
  | .created => .ok (some ⟨uuid, name, 0⟩)
  | .conflictRace => get_resource_provider env.getProvider2 st
  | .hardFailure => .error (st, .creationFailed)

/-- `_ensure_resource_provider(uuid, name, parent_provider_uuid)`: if cached,
run a (staleness-respecting) association refresh; else fetch or create the
remote record, insert it into the cache as root or child, and force an
association refresh with the record's generation. -/
def ensure_resource_provider (env : AttemptEnv) (st : ClientState)
    (uuid : String) (name : Option String) (parent : Option String) :
    Except (ClientState × PErr) ClientState :=
  if tree_exists st.tree uuid then
    match (refresh_associations env.refresh st uuid none false).err,
        (refresh_associations env.refresh st uuid none false).state with
    | some e, s => .error (s, e)
    | none, s => .ok s
  else
    match get_resource_provider env.getProvider st with
    | .error e => .error e
    | .ok rpOpt =>
      match
        (match rpOpt with
         | some r => .ok r
         | none =>
           match create_resource_provider env st uuid (name.getD uuid) with
           | .error e => .error e
           | .ok (some r) => .ok r
           | .ok none => .error (st, .typeError) :
         Except (ClientState × PErr) RpRec) with
      | .error e => .error e
      | .ok r =>
        match
          (match parent with
           | none =>
             match tree_new_root st.tree r.name uuid r.generation with
             | .error e => .error (st, e)
             | .ok t => .ok (ClientState.mk t st.association_refresh_time)
           | some pu =>
             match tree_new_child st.tree r.name pu uuid r.generation with
             | .error e => .error (st, e)
             | .ok t => .ok (ClientState.mk t st.association_refresh_time) :
           Except (ClientState × PErr) ClientState) with
        | .error e => .error e
        | .ok st1 =>
          match (refresh_associations env.refresh st1 uuid
                (some r.generation) true).err,
              (refresh_associations env.refresh st1 uuid
                (some r.generation) true).state with
          | some e, s => .error (s, e)
          | none, s => .ok s

/-- `re.search` building blocks for
`_RE_INV_IN_USE = Inventory for (.+) on resource provider (.+) in use`. -/
def inv_in_use_lit1 : List Char := "Inventory for ".data

def inv_in_use_lit2 : List Char := " on resource provider ".data

def inv_in_use_lit3 : List Char := " in use".data

/-- `(.+)pat` followed by `cont`: a nonempty run of non-newline characters,
then the literal `pat`, then a suffix accepted by `cont`. -/
def dot_plus_seq (pat : List Char) (cont : List Char → Bool) :
    List Char → Bool
  | [] => false
  | c :: rest =>
    c != '\n' &&
      ((pat.isPrefixOf rest && cont (rest.drop pat.length))
        || dot_plus_seq pat cont rest)

/-- Whether `_RE_INV_IN_USE.search(text)` finds a match: some position starts
`Inventory for `, followed by `(.+) on resource provider (.+) in use`. -/
def re_inv_in_use_search : List Char → Bool
  | [] => false
  | c :: rest =>
    (inv_in_use_lit1.isPrefixOf (c :: rest) &&
      dot_plus_seq inv_in_use_lit2
        (dot_plus_seq inv_in_use_lit3 (fun _ => true))
        ((c :: rest).drop inv_in_use_lit1.length))
    || re_inv_in_use_search rest

/-- `_update_inventory_attempt(rp_uuid, inv_data)`: refresh the cached view,
short-circuit when the proposed inventory is unchanged, PUT the payload, and
handle the responses — a 409 whose body matches the inventory-in-use pattern
raises `InventoryInUse`; any other 409 drops the cached provider and re-runs
`_ensure_resource_provider` before reporting a retryable failure; other
non-success statuses report a retryable failure; a 200 records the new
generation and inventory in the cache. -/
def update_inventory_attempt (env : AttemptEnv) (st : ClientState)
    (rp_uuid : String) (inv_data : Inv) :
    Except (ClientState × PErr) (Bool × ClientState) :=
  match refresh_and_get_inventory env.getInventory st rp_uuid with
  | .error e => .error e
  | .ok (st1, none) => .ok (false, st1)
  | .ok (st1, some _curr) =>
    match tree_has_inventory_changed st1.tree rp_uuid inv_data with
    | .error e => .error (st1, e)
    | .ok false => .ok (true, st1)
    | .ok true =>
      if env.putResp.status = 409 then
        if re_inv_in_use_search env.putResp.text then
          .error (st1, .inventoryInUse)
        else
          match tree_remove st1.tree rp_uuid with
          | .error e => .error (st1, e)
          | .ok t =>
            match ensure_resource_provider env
                (ClientState.mk t st1.association_refresh_time)
                rp_uuid none none with
            | .error e => .error e
            | .ok st2 => .ok (false, st2)
      else if ¬ (env.putResp.status < 400) then .ok (false, st1)
      else if env.putResp.status ≠ 200 then .ok (false, st1)
      else
        match tree_update_inventory st1.tree rp_uuid inv_data env.putNewGen with
        | .error e => .error (st1, e)
        | .ok t => .ok (true, ClientState.mk t st1.association_refresh_time)

/-- Outcome of the `_update_inventory` retry loop: the overall result (or the
exception that propagated), the final state, the number of attempts made,
and the number of `time.sleep(1)` delays taken. -/
structure LoopOut where
  result : Except PErr Bool
  state : ClientState
  attempts : Nat
  sleeps : Nat
  deriving Repr

/-- The `for attempt in (1, 2, 3)` body of `_update_inventory`: abort with
failure when the provider is no longer cached; otherwise run one attempt,
returning its success, propagating its exception, or sleeping one second and
retrying. -/
def update_inventory_go (envs : Nat → AttemptEnv) (rp_uuid : String)
    (inv_data : Inv) : Nat → ClientState → Nat → Nat → LoopOut
  | 0, st, used, slp => ⟨.ok false, st, used, slp⟩
  | fuel + 1, st, used, slp =>
    if tree_exists st.tree rp_uuid then
      match update_inventory_attempt (envs used) st rp_uuid inv_data with
      | .error (st', e) => ⟨.error e, st', used + 1, slp⟩
      | .ok (true, st') => ⟨.ok true, st', used + 1, slp⟩
      | .ok (false, st') =>
        update_inventory_go envs rp_uuid inv_data fuel st' (used + 1) (slp + 1)
    else ⟨.ok false, st, used, slp⟩

/-- `_update_inventory(rp_uuid, inv_data)`: at most 3 attempts. -/
def update_inventory (envs : Nat → AttemptEnv) (rp_uuid : String)
    (inv_data : Inv) (st : ClientState) : LoopOut :=
  update_inventory_go envs rp_uuid inv_data 3 st 0 0

theorem update_go_error_first (envs : Nat → AttemptEnv) (rp_uuid : String)
    (inv_data : Inv) (fuel : Nat) (st : ClientState) (used slp : Nat)
    (hex : tree_exists st.tree rp_uuid = true) (st' : ClientState) (e : PErr)
    (hatt : update_inventory_attempt (envs used) st rp_uuid inv_data
      = .error (st', e)) :
    update_inventory_go envs rp_uuid inv_data (fuel + 1) st used slp
      = ⟨.error e, st', used + 1, slp⟩ := by
  unfold update_inventory_go
  rw [if_pos hex, hatt]

theorem update_go_bounds (envs : Nat → AttemptEnv) (rp_uuid : String)
    (inv_data : Inv) : ∀ (fuel : Nat) (st : ClientState) (used slp : Nat),
    (update_inventory_go envs rp_uuid inv_data fuel st used slp).attempts
      ≤ used + fuel := by
  intro fuel
  induction fuel with
  | zero => intro st used slp; simp [update_inventory_go]
  | succ n ih =>
    intro st used slp
    unfold update_inventory_go
    by_cases hex : tree_exists st.tree rp_uuid
    · rw [if_pos hex]
      cases hatt : update_inventory_attempt (envs used) st rp_uuid inv_data with
      | error pe =>
        obtain ⟨st', e⟩ := pe
        simp only [hatt]
        omega
      | ok pr =>
        obtain ⟨b, st'⟩ := pr
        cases b with
        | true => simp only [hatt]; omega
        | false =>
          simp only [hatt]
          have := ih st' (used + 1) (slp + 1)
          omega
    · rw [if_neg hex]
      simp only []
      omega

theorem update_go_all_fail (envs : Nat → AttemptEnv) (rp_uuid : String)
    (inv_data : Inv)
    (h : ∀ i s, ∃ s', update_inventory_attempt (envs i) s rp_uuid inv_data
      = .ok (false, s')) :
    ∀ (fuel : Nat) (st : ClientState) (used slp : Nat),
    (update_inventory_go envs rp_uuid inv_data fuel st used slp).result
      = .ok false := by
  intro fuel
  induction fuel with
  | zero => intro st used slp; rfl
  | succ n ih =>
    intro st used slp
    unfold update_inventory_go
    by_cases hex : tree_exists st.tree rp_uuid
    · rw [if_pos hex]
      obtain ⟨s', hs⟩ := h used st
      rw [hs]
      exact ih s' (used + 1) (slp + 1)
    · rw [if_neg hex]

theorem update_go_exhausts (envs : Nat → AttemptEnv) (rp_uuid : String)
    (inv_data : Inv)
    (h : ∀ i s, tree_exists s.tree rp_uuid = true →
      ∃ s', update_inventory_attempt (envs i) s rp_uuid inv_data
          = .ok (false, s')
        ∧ tree_exists s'.tree rp_uuid = true) :
    ∀ (fuel : Nat) (st : ClientState) (used slp : Nat),
    tree_exists st.tree rp_uuid = true →
    (update_inventory_go envs rp_uuid inv_data fuel st used slp).result
        = .ok false
    ∧ (update_inventory_go envs rp_uuid inv_data fuel st used slp).attempts
        = used + fuel
    ∧ (update_inventory_go envs rp_uuid inv_data fuel st used slp).sleeps
        = slp + fuel := by
  intro fuel
  induction fuel with
  | zero => intro st used slp _; exact ⟨rfl, rfl, rfl⟩
  | succ n ih =>
    intro st used slp hex
    obtain ⟨s', hs, hex'⟩ := h used st hex
    unfold update_inventory_go
    rw [if_pos hex, hs]
    obtain ⟨h1, h2, h3⟩ := ih s' (used + 1) (slp + 1) hex'
    exact ⟨h1, h2.trans (by omega), h3.trans (by omega)⟩

/-- C6: `_update_inventory` makes at most 3 attempts; at the start of each
iteration a provider missing from the cache aborts immediately with failure
and no further attempt; attempts that fail retryably are each followed by a
one-second delay, and exhausting all 3 attempts yields `False` to the
caller, not an exception. -/
theorem update_inventory_retry_policy (envs : Nat → AttemptEnv)
    (st : ClientState) (rp_uuid : String) (inv_data : Inv) :
    (update_inventory envs rp_uuid inv_data st).attempts ≤ 3
    ∧ (∀ fuel used slp (st' : ClientState),
        tree_exists st'.tree rp_uuid = false →
        update_inventory_go envs rp_uuid inv_data (fuel + 1) st' used slp
          = ⟨.ok false, st', used, slp⟩)
    ∧ ((∀ i s, ∃ s', update_inventory_attempt (envs i) s rp_uuid inv_data
          = .ok (false, s')) →
        (update_inventory envs rp_uuid inv_data st).result = .ok false)
    ∧ ((∀ i s, tree_exists s.tree rp_uuid = true →
          ∃ s', update_inventory_attempt (envs i) s rp_uuid inv_data
              = .ok (false, s')
            ∧ tree_exists s'.tree rp_uuid = true) →
        tree_exists st.tree rp_uuid = true →
        (update_inventory envs rp_uuid inv_data st).result = .ok false
        ∧ (update_inventory envs rp_uuid inv_data st).attempts = 3
        ∧ (update_inventory envs rp_uuid inv_data st).sleeps = 3) := by
  refine ⟨update_go_bounds envs rp_uuid inv_data 3 st 0 0, ?_, ?_, ?_⟩
  · intro fuel used slp st' hf
    unfold update_inventory_go
    rw [if_neg (by simp [hf])]
  · intro h
    exact update_go_all_fail envs rp_uuid inv_data h 3 st 0 0
  · intro h hex
    exact update_go_exhausts envs rp_uuid inv_data h 3 st 0 0 hex

/-- C6 witness: with every inventory GET failing, all three attempts fail
retryably: 3 attempts, 3 delays, overall result `False` with no exception. -/
theorem update_inventory_retry_policy_witness :
    (update_inventory
        (fun _ => ⟨none, ⟨500, []⟩, 0, .notFound, .hardFailure, .notFound,
          ⟨0, fun _ => none, fun _ => none, fun _ => .ok []⟩⟩)
        "cn" [("VCPU", [("total", 4)])]
        ⟨[("cn", ⟨"cn", 1, none, [], [], []⟩)], []⟩).result = .ok false
    ∧ (update_inventory
        (fun _ => ⟨none, ⟨500, []⟩, 0, .notFound, .hardFailure, .notFound,
          ⟨0, fun _ => none, fun _ => none, fun _ => .ok []⟩⟩)
        "cn" [("VCPU", [("total", 4)])]
        ⟨[("cn", ⟨"cn", 1, none, [], [], []⟩)], []⟩).attempts = 3 := by
  have h := (update_inventory_retry_policy
      (fun _ => ⟨none, ⟨500, []⟩, 0, .notFound, .hardFailure, .notFound,
        ⟨0, fun _ => none, fun _ => none, fun _ => .ok []⟩⟩)
      ⟨[("cn", ⟨"cn", 1, none, [], [], []⟩)], []⟩
      "cn" [("VCPU", [("total", 4)])]).2.2.2
      (fun i s hexs => ⟨s, rfl, hexs⟩) (by decide)
  exact ⟨h.1, h.2.1⟩

/-- C5: on a 409 during an inventory update attempt, a body matching the
inventory-in-use pattern raises `InventoryInUse` and the retry loop
propagates it without another attempt; any other 409 drops the cached
provider entry entirely, re-runs `_ensure_resource_provider` (re-learning
the provider's current remote generation into a fresh cache entry) and the
attempt reports a retryable failure. -/
theorem inventory_conflict_handling (env : AttemptEnv) (st : ClientState)
    (rp_uuid : String) (inv_data : Inv) (doc : InvDoc) (node : ProviderNode)
    (h409 : env.putResp.status = 409)
    (hinv : env.getInventory = some doc)
    (hgen : doc.resource_provider_generation = 0)
    (hnode : alist_get rp_uuid st.tree = some node)
    (hch : invEqb node.inventories inv_data = false) :
    (re_inv_in_use_search env.putResp.text = true →
      update_inventory_attempt env st rp_uuid inv_data
        = .error (st, .inventoryInUse)
      ∧ ∀ envs : Nat → AttemptEnv, envs 0 = env →
          update_inventory envs rp_uuid inv_data st
            = ⟨.error .inventoryInUse, st, 1, 0⟩)
    ∧ (re_inv_in_use_search env.putResp.text = false →
        env.refresh.aggsResp rp_uuid = none →
        env.refresh.traitsResp rp_uuid = none →
        ∀ rec : RpRec, env.getProvider = .found rec →
        ∃ st2, update_inventory_attempt env st rp_uuid inv_data
            = .ok (false, st2)
          ∧ alist_get rp_uuid st2.tree
              = some ⟨rec.name, rec.generation, none, [], [], []⟩
          ∧ alist_get rp_uuid st2.association_refresh_time
              = some env.refresh.time) := by
  have hex : tree_exists st.tree rp_uuid = true := by
    unfold tree_exists; rw [hnode]; rfl
  have hgne : ¬ (doc.resource_provider_generation ≠ 0) := by rw [hgen]; simp
  have hstep1 : refresh_and_get_inventory env.getInventory st rp_uuid
      = .ok (st, some doc) := by
    rw [hinv]
    simp only [refresh_and_get_inventory]
    rw [if_neg hgne]
  have hchg : tree_has_inventory_changed st.tree rp_uuid inv_data
      = .ok true := by
    unfold tree_has_inventory_changed
    rw [hnode]
    simp only []
    rw [hch]
    rfl
  constructor
  · intro hre
    have hatt : update_inventory_attempt env st rp_uuid inv_data
        = .error (st, .inventoryInUse) := by
      unfold update_inventory_attempt
      rw [hstep1]
      simp only []
      rw [hchg]
      simp only []
      rw [if_pos h409, if_pos hre]
    refine ⟨hatt, ?_⟩
    intro envs henv
    have hattE : update_inventory_attempt (envs 0) st rp_uuid inv_data
        = .error (st, .inventoryInUse) := by rw [henv]; exact hatt
    exact update_go_error_first envs rp_uuid inv_data 2 st 0 0 hex st
      .inventoryInUse hattE
  · intro hre hags htrs rec hget
    obtain ⟨t, hrem, hremget⟩ := tree_remove_removes st.tree rp_uuid hex
    have hexf : tree_exists t rp_uuid = false := by
      unfold tree_exists; rw [hremget]; rfl
    have hnr : tree_new_root t rec.name rp_uuid rec.generation
        = .ok (t ++ [(rp_uuid, ⟨rec.name, rec.generation, none, [], [], []⟩)]) := by
      unfold tree_new_root
      rw [if_neg (by simp [hexf])]
    have hro : refresh_own_associations env.refresh
        (ClientState.mk
          (t ++ [(rp_uuid, ⟨rec.name, rec.generation, none, [], [], []⟩)])
          st.association_refresh_time)
        rp_uuid (some rec.generation)
        = .ok (ClientState.mk
            (t ++ [(rp_uuid, ⟨rec.name, rec.generation, none, [], [], []⟩)])
            st.association_refresh_time, none) := by
      unfold refresh_own_associations
      rw [hags, htrs]
    have hrefresh : refresh_associations env.refresh
        (ClientState.mk
          (t ++ [(rp_uuid, ⟨rec.name, rec.generation, none, [], [], []⟩)])
          st.association_refresh_time)
        rp_uuid (some rec.generation) true
        = ⟨ClientState.mk
            (t ++ [(rp_uuid, ⟨rec.name, rec.generation, none, [], [], []⟩)])
            (alist_put rp_uuid env.refresh.time st.association_refresh_time),
          true, none⟩ := by
      unfold refresh_associations
      rw [if_pos (Bool.true_or _), hro]
      rfl
    have hens : ensure_resource_provider env
        (ClientState.mk t st.association_refresh_time) rp_uuid none none
        = .ok (ClientState.mk
            (t ++ [(rp_uuid, ⟨rec.name, rec.generation, none, [], [], []⟩)])
            (alist_put rp_uuid env.refresh.time st.association_refresh_time)) := by
      unfold ensure_resource_provider
      rw [if_neg (by simp [hexf])]
      rw [hget]
      simp only [get_resource_provider]
      rw [hnr]
      simp only []
      rw [hrefresh]
    have hatt : update_inventory_attempt env st rp_uuid inv_data
        = .ok (false, ClientState.mk
            (t ++ [(rp_uuid, ⟨rec.name, rec.generation, none, [], [], []⟩)])
            (alist_put rp_uuid env.refresh.time st.association_refresh_time)) := by
      unfold update_inventory_attempt
      rw [hstep1]
      simp only []
      rw [hchg]
      simp only []
      rw [if_pos h409, if_neg (by simp [hre]), hrem]
      simp only []
      rw [hens]
    refine ⟨_, hatt, ?_, ?_⟩
    · exact alist_get_append_right_none t rp_uuid _ hremget
    · exact alist_get_put_self _ _ _

/-- C5 witness: a 409 whose body names the in-use inventory raises
`InventoryInUse` and the loop stops after exactly one attempt. -/
theorem inventory_conflict_handling_witness :
    update_inventory_attempt
        ⟨some ⟨0, []⟩,
          ⟨409, "Inventory for VCPU on resource provider cn in use".data⟩,
          0, .notFound, .hardFailure, .notFound,
          ⟨0, fun _ => none, fun _ => none, fun _ => .ok []⟩⟩
        ⟨[("cn", ⟨"cn", 1, none, [], [], []⟩)], []⟩
        "cn" [("VCPU", [("total", 4)])]
      = .error (⟨[("cn", ⟨"cn", 1, none, [], [], []⟩)], []⟩, .inventoryInUse)
    ∧ update_inventory
        (fun _ => ⟨some ⟨0, []⟩,
          ⟨409, "Inventory for VCPU on resource provider cn in use".data⟩,
          0, .notFound, .hardFailure, .notFound,
          ⟨0, fun _ => none, fun _ => none, fun _ => .ok []⟩⟩)
        "cn" [("VCPU", [("total", 4)])]
        ⟨[("cn", ⟨"cn", 1, none, [], [], []⟩)], []⟩
      = ⟨.error .inventoryInUse, ⟨[("cn", ⟨"cn", 1, none, [], [], []⟩)], []⟩,
          1, 0⟩ := by
  have h := (inventory_conflict_handling
      ⟨some ⟨0, []⟩,
        ⟨409, "Inventory for VCPU on resource provider cn in use".data⟩,
        0, .notFound, .hardFailure, .notFound,
        ⟨0, fun _ => none, fun _ => none, fun _ => .ok []⟩⟩
      ⟨[("cn", ⟨"cn", 1, none, [], [], []⟩)], []⟩
      "cn" [("VCPU", [("total", 4)])] ⟨0, []⟩ ⟨"cn", 1, none, [], [], []⟩
      rfl rfl rfl (by decide) (by decide)).1 (by decide)
  exact ⟨h.1, h.2 _ rfl⟩

end NovaReport
